import Mathlib

/- Verification of the mail-scanner watcher (emailWatcher.ts, emailUtils.ts,
   emailAnalyzer.ts) against its natural-language specification.  The
   TypeScript sources are shallowly embedded: pure computations become Lean
   functions, the stateful event handlers become explicit step functions over
   small state records, and JavaScript numbers are modelled as ℚ (for
   probabilities and delays) or ℤ (for epoch-millisecond timestamps and
   message sequence numbers). -/

namespace MailScanner

/-! ## Text sanitisation (emailAnalyzer.ts, `sanitizeText` / `isScamEmail`) -/

/-- Character class of the first regex in `sanitizeText`:
`/[\u0000-\u0008\u000B\u000C\u000E-\u001F\u007F]/g` (control characters that
are replaced by a space). -/
def isStrippedControl (c : Char) : Bool :=
  c.toNat ≤ 0x08 || c.toNat == 0x0B || c.toNat == 0x0C ||
    (0x0E ≤ c.toNat && c.toNat ≤ 0x1F) || c.toNat == 0x7F

/-- JavaScript regex `\s` (WhiteSpace ∪ LineTerminator), the class collapsed
by `.replace(/\s+/g, " ")` and removed at the ends by `.trim()`. -/
def isJsWhitespace (c : Char) : Bool :=
  (0x09 ≤ c.toNat && c.toNat ≤ 0x0D) || c.toNat == 0x20 || c.toNat == 0xA0 ||
    c.toNat == 0x1680 || (0x2000 ≤ c.toNat && c.toNat ≤ 0x200A) ||
    c.toNat == 0x2028 || c.toNat == 0x2029 || c.toNat == 0x202F ||
    c.toNat == 0x205F || c.toNat == 0x3000 || c.toNat == 0xFEFF

/-- ASCII control characters (U+0000–U+001F and U+007F); used only to state
properties, not by the embedded code. -/
def isAsciiControl (c : Char) : Bool :=
  c.toNat ≤ 0x1F || c.toNat == 0x7F

/-- First step of `sanitizeText`: every stripped control character becomes a
space. -/
def replaceControls (l : List Char) : List Char :=
  l.map (fun c => if isStrippedControl c then ' ' else c)

/-- Second step of `sanitizeText`: `.replace(/\s+/g, " ")` — each maximal run
of whitespace becomes a single space (a whitespace character followed by more
whitespace is dropped; the run's last whitespace character becomes the
space). -/
def collapseWs : List Char → List Char
  | [] => []
  | [c] => if isJsWhitespace c then [' '] else [c]
  | c :: d :: cs =>
    if isJsWhitespace c then
      if isJsWhitespace d then collapseWs (d :: cs)
      else ' ' :: collapseWs (d :: cs)
    else c :: collapseWs (d :: cs)

/-- Third step of `sanitizeText`: `.trim()` — strip whitespace from both
ends. -/
def trimWs (l : List Char) : List Char :=
  ((l.dropWhile isJsWhitespace).reverse.dropWhile isJsWhitespace).reverse

/-- Embedding of `EmailAnalyzer.sanitizeText` over a character list.  The
`if (!text) return ""` guard short-circuits the empty string. -/
def sanitizeText (text : List Char) : List Char :=
  if text = [] then []
  else trimWs (collapseWs (replaceControls text))

/-- Body text placed into the classifier prompt by `isScamEmail`:
`bodySanitized.substring(0, this.bodyMaxChars)`. -/
def classifierBody (text : List Char) (bodyMaxChars : Nat) : List Char :=
  (sanitizeText text).take bodyMaxChars

/-! ## Message model and classification pipeline
(emailWatcher.ts `onNewMails` / `processHistoricalEmails`, emailUtils.ts) -/

/-- Embedding of the `EmailContent` interface (emailAnalyzer.ts).  Timestamps
are epoch milliseconds (ℤ). -/
structure EmailContent where
  uid : Nat
  subject : String
  fromAddr : String
  date : Int
  text : List Char
  html : Bool
deriving DecidableEq, Repr

/-- Embedding of the `ScanResult` interface: the classifier's probability
(a JavaScript number, modelled as ℚ). -/
structure ScanResult where
  scam_probability : ℚ
deriving DecidableEq, Repr

/-- Result of `simpleParser` on the raw body, as consumed by
`processHistoricalEmails`: optional date/subject/from/text/html fields. -/
structure ParsedMail where
  date : Option Int
  subject : Option String
  fromText : Option String
  text : Option (List Char)
  html : Bool
deriving DecidableEq, Repr

/-- One raw message from `connection.search`: whether it has a part with
`which === ""`, and what `simpleParser` yields on it (`none` = the parser
throws). -/
structure RawMessage where
  uid : Nat
  hasAllPart : Bool
  parse : Option ParsedMail
deriving DecidableEq, Repr

/-- Observable outcome of the live-mail loop for one message. -/
inductive MsgOutcome where
  | movedToSpam
  | leftInPlace
deriving DecidableEq, Repr

/-- Observable outcome of the backfill loop for one message. -/
inductive HistOutcome where
  | skippedNoAllPart
  | parseError
  | skippedOld
  | movedToSpam
  | leftInPlace
  | relocationError
deriving DecidableEq, Repr

/-- Loop body of `onNewMails`: classify each fetched email and move it when
`result.scam_probability >= this.scamThreshold`.  There is no per-message
`try`/`catch` in this loop, so a throwing `moveToSpamFolder` (which logs and
re-throws) propagates: the loop yields `Except.error uid` and the remaining
messages are not visited.  The classifier itself never throws
(`isScamEmail` catches internally and returns probability 0). -/
def onNewMailsLoop (classify : EmailContent → ScanResult) (moveOk : Nat → Bool)
    (threshold : ℚ) : List EmailContent → Except Nat (List (Nat × MsgOutcome))
  | [] => .ok []
  | e :: rest =>
    if threshold ≤ (classify e).scam_probability then
      if moveOk e.uid then
        (onNewMailsLoop classify moveOk threshold rest).map
          (fun l => (e.uid, .movedToSpam) :: l)
      else .error e.uid
    else
      (onNewMailsLoop classify moveOk threshold rest).map
        (fun l => (e.uid, .leftInPlace) :: l)

/-- Routing decision of the `mail` event handler: after re-querying
`getTotalMessages`, `totalMessages === numberOfEmails` selects the backfill
path, anything else the live-mail path with the batch bounds passed to
`fetchEmailsBatch`. -/
inductive MailRoute where
  | backfill
  | live (startSeq endSeq : Int)
deriving DecidableEq, Repr

/-- Embedding of the `mail` handler's branch on the freshly queried total. -/
def mailHandlerRoute (numberOfEmails totalMessages : Int) : MailRoute :=
  if totalMessages = numberOfEmails then .backfill
  else .live (totalMessages - numberOfEmails + 1) totalMessages

/-- Embedding of `onNewMails`: fetch the batch
`[totalMessages - numberOfEmails + 1, totalMessages]` and run the loop over
it.  `fetch` abstracts `fetchEmailsBatch`'s server interaction. -/
def onNewMails (classify : EmailContent → ScanResult) (moveOk : Nat → Bool)
    (threshold : ℚ) (fetch : Int → Int → List EmailContent)
    (totalMessages numberOfEmails : Int) : Except Nat (List (Nat × MsgOutcome)) :=
  onNewMailsLoop classify moveOk threshold
    (fetch (totalMessages - numberOfEmails + 1) totalMessages)

/-- The `EmailContent` record built inside `processHistoricalEmails` from one
parsed message (`dayjs(parsed.date || new Date())` defaults the date to
`now`). -/
def histEmailContent (m : RawMessage) (p : ParsedMail) (now : Int) : EmailContent :=
  { uid := m.uid
    subject := p.subject.getD "(No subject)"
    fromAddr := p.fromText.getD "Unknown sender"
    date := p.date.getD now
    text := p.text.getD []
    html := p.html }

/-- Loop body of `processHistoricalEmails`.  Each message is wrapped in its
own `try`/`catch`: a parse failure or a throwing `moveToSpamFolder` is logged
and the loop continues.  Messages whose parsed date is strictly before
`lowerBound` are skipped before classification. -/
def processHistoricalLoop (classify : EmailContent → ScanResult)
    (moveOk : Nat → Bool) (threshold : ℚ) (lowerBound now : Int) :
    List RawMessage → List (Nat × HistOutcome)
  | [] => []
  | m :: rest =>
    let tail := processHistoricalLoop classify moveOk threshold lowerBound now rest
    if !m.hasAllPart then (m.uid, .skippedNoAllPart) :: tail
    else
      match m.parse with
      | none => (m.uid, .parseError) :: tail
      | some p =>
        let email : EmailContent := histEmailContent m p now
        if email.date < lowerBound then (m.uid, .skippedOld) :: tail
        else if threshold ≤ (classify email).scam_probability then
          if moveOk m.uid then (m.uid, .movedToSpam) :: tail
          else (m.uid, .relocationError) :: tail
        else (m.uid, .leftInPlace) :: tail

/-! ## Reconnection scheduler (emailWatcher.ts `scheduleReconnection`,
`connect`, `handleConnectionError`) -/

/-- Constant `maxReconnectAttempts = 5`. -/
def maxReconnectAttempts : Nat := 5

/-- Constant `initialReconnectDelay = 1000` (milliseconds, as ℚ). -/
def initialReconnectDelay : ℚ := 1000

/-- State owned by the reconnection scheduler: the attempt counter, the
`isReconnecting` in-flight flag, whether a reconnect timer is pending, the
delay passed to the last `setTimeout`, and whether the exhaustion message has
been logged. -/
structure ReconnectState where
  reconnectAttempts : Nat
  isReconnecting : Bool
  timerPending : Bool
  lastDelay : Option ℚ
  exhaustionLogged : Bool
deriving DecidableEq, Repr

/-- State before any failure: counter 0, no flags, no timer. -/
def initialReconnectState : ReconnectState :=
  { reconnectAttempts := 0, isReconnecting := false, timerPending := false
    lastDelay := none, exhaustionLogged := false }

/-- Embedding of `scheduleReconnection`.  `rand` is the value of
`Math.random()` (in `[0,1)`); the scheduled delay is
`Math.min(initialReconnectDelay * 2^(attempts-1) + rand*1000, 30000)` with
the counter already incremented. -/
def scheduleReconnection (s : ReconnectState) (rand : ℚ) : ReconnectState :=
  if s.isReconnecting ∨ maxReconnectAttempts ≤ s.reconnectAttempts then
    if maxReconnectAttempts ≤ s.reconnectAttempts then
      { s with exhaustionLogged := true }
    else s
  else
    let attempts := s.reconnectAttempts + 1
    let delay : ℚ :=
      min (initialReconnectDelay * 2 ^ (attempts - 1) + rand * 1000) 30000
    { s with
      isReconnecting := true
      reconnectAttempts := attempts
      timerPending := true
      lastDelay := some delay }

/-- Events driving the reconnection scheduler:
- `failureSignal` — an `error`/`close(hadError)` event or a keepalive
  failure reaches `handleConnectionError` (which returns early when
  `isReconnecting` is set, else calls `scheduleReconnection`);
- `startFailure` — `startWatching`'s catch calls `scheduleReconnection`
  directly;
- `timerSuccess` — the pending timer fires and `connect()` succeeds
  (`reconnectAttempts = 0` inside `connect`, then `isReconnecting = false`);
- `timerFailure` — the pending timer fires, `connect()` throws, and the
  catch sets `isReconnecting = false` and calls `scheduleReconnection`
  again. -/
inductive ReconnectEvent where
  | failureSignal (rand : ℚ)
  | startFailure (rand : ℚ)
  | timerSuccess
  | timerFailure (rand : ℚ)

/-- One scheduler transition per event. -/
def reconnectStep (s : ReconnectState) : ReconnectEvent → ReconnectState
  | .failureSignal r => if s.isReconnecting then s else scheduleReconnection s r
  | .startFailure r => scheduleReconnection s r
  | .timerSuccess =>
    if s.timerPending then
      { s with reconnectAttempts := 0, isReconnecting := false
               timerPending := false }
    else s
  | .timerFailure r =>
    if s.timerPending then
      scheduleReconnection { s with isReconnecting := false, timerPending := false } r
    else s

/-- Run of the scheduler over an event sequence. -/
def reconnectRun (s : ReconnectState) (evs : List ReconnectEvent) : ReconnectState :=
  evs.foldl reconnectStep s

/-! ## Backfill trigger guard (emailWatcher.ts `mail` handler, backfill
branch).  The handler is `async`; its suspension points (`await`) let other
`mail` events interleave, so we model each in-flight handler invocation by a
program counter and interleave their atomic segments.  The segments are:
- the guard check `if (!this.isBackfilling)` together with the assignment
  `this.isBackfilling = true` (no `await` in between, hence one atomic step);
  when the guard fails, the rest of the `try` block and the `finally`
  (`this.isBackfilling = false`) run synchronously in the same segment;
- the awaited scan `processHistoricalEmails` + `updateAnalyzedUntil`,
  after which the `finally` clears the flag. -/

/-- Program counter of one in-flight backfill-branch handler invocation. -/
inductive BackfillPC where
  | atGuard
  | scanning
  | done
deriving DecidableEq, Repr

/-- Shared flag `isBackfilling` plus the in-flight handler invocations. -/
structure BackfillSystem where
  isBackfilling : Bool
  handlers : List BackfillPC
deriving DecidableEq, Repr

/-- System with no in-flight handler and a cleared flag. -/
def initialBackfillSystem : BackfillSystem :=
  { isBackfilling := false, handlers := [] }

/-- One atomic segment of a handler invocation, given the current flag:
returns the new flag and the handler's next program counter. -/
def backfillAdvance (flag : Bool) : BackfillPC → Bool × BackfillPC
  | .atGuard =>
    if flag then (false, .done)
    else (true, .scanning)
  | .scanning => (false, .done)
  | .done => (flag, .done)

/-- Events: a new initial-announcement notification arrives (spawning a
handler at its guard), or in-flight handler `i` runs its next segment. -/
inductive BackfillEvent where
  | trigger
  | advance (i : Nat)

/-- One transition of the backfill system. -/
def backfillStep (sys : BackfillSystem) : BackfillEvent → BackfillSystem
  | .trigger => { sys with handlers := sys.handlers ++ [.atGuard] }
  | .advance i =>
    match sys.handlers.get? i with
    | none => sys
    | some pc =>
      let fp := backfillAdvance sys.isBackfilling pc
      { isBackfilling := fp.1, handlers := sys.handlers.set i fp.2 }

/-- Run of the backfill system over an event sequence. -/
def backfillRun (sys : BackfillSystem) (evs : List BackfillEvent) : BackfillSystem :=
  evs.foldl backfillStep sys

/-- Number of backfill scans currently in flight. -/
def runningScans (sys : BackfillSystem) : Nat :=
  sys.handlers.countP (fun pc => pc = BackfillPC.scanning)

/-! ## Watermark persistence (emailWatcher.ts `updateAnalyzedUntil`) -/

/-- One entry of the accounts config array, as far as
`updateAnalyzedUntil` inspects it. -/
structure ConfigEntry where
  user : Option String
  label : Option String
  emailsAnalyzedUntil : Option Int
deriving DecidableEq, Repr

/-- Fields of the watcher relevant to watermark persistence. -/
structure WatcherPersist where
  configPath : Option String
  accountUser : Option String
  label : Option String
  emailsAnalyzedUntil : Option Int
deriving DecidableEq, Repr

/-- Outcome of the file-system interaction inside `updateAnalyzedUntil`:
`readParse = .error` when `readFileSync` or `JSON.parse` throws, `.ok none`
when the parsed JSON is not an array, `.ok (some entries)` otherwise;
`writeOk = false` when `writeFileSync` throws. -/
structure FsEnv where
  readParse : Except Unit (Option (List ConfigEntry))
  writeOk : Bool

/-- Predicate of `data.findIndex(...)`:
`(this.accountUser && acc.user === this.accountUser) ||
 (this.label && acc.label === this.label)`. -/
def accountMatches (st : WatcherPersist) (e : ConfigEntry) : Bool :=
  (match st.accountUser with
   | some u => e.user == some u
   | none => false) ||
  (match st.label with
   | some l => e.label == some l
   | none => false)

/-- Embedding of `updateAnalyzedUntil`.  Returns the new watcher state and
whether the catch block logged a failure.  The in-memory assignment
`this.emailsAnalyzedUntil = date` sits after `writeFileSync` inside the
`try`, so it only happens when every prior step succeeded. -/
def updateAnalyzedUntil (st : WatcherPersist) (env : FsEnv) (date : Int) :
    WatcherPersist × Bool :=
  match st.configPath with
  | none => (st, false)
  | some _ =>
    match env.readParse with
    | .error _ => (st, true)
    | .ok none => (st, false)
    | .ok (some entries) =>
      match entries.findIdx? (accountMatches st) with
      | none => (st, false)
      | some _ =>
        if env.writeOk then
          ({ st with emailsAnalyzedUntil := some date }, false)
        else (st, true)

/-! ## Quarantine folder resolution (emailUtils.ts `moveToSpamFolder`) -/

/-- Priority list `candidates` from `moveToSpamFolder`. -/
def spamCandidates : List String :=
  ["spam", "junk", "junk e-mail", "bulk", "[gmail]/spam"]

/-- JavaScript `toLowerCase()`, character-wise over the string's
characters. -/
def lowerChars (s : String) : List Char :=
  s.data.map Char.toLower

/-- Lookup in `lowerToOriginal` (a `Map` built from
`allBoxes.map(n => [n.toLowerCase(), n])`; on duplicate lowercase keys the
later entry wins, hence the search over the reversed list). -/
def exactBoxMatch (allBoxes : List String) (cand : String) : Option String :=
  allBoxes.reverse.find? (fun b => lowerChars b == lowerChars cand)

/-- The trailing-segment fallback:
`allBoxes.find(b => b.toLowerCase().endsWith("/" + cand.toLowerCase()))`. -/
def suffixBoxMatch (allBoxes : List String) (cand : String) : Option String :=
  allBoxes.find? (fun b => List.isSuffixOf ('/' :: lowerChars cand) (lowerChars b))

/-- The candidate loop of `moveToSpamFolder`: for each candidate in priority
order, try the exact full-path match, then the trailing-segment match, and
`break` on the first hit. -/
def findSpamTarget (allBoxes : List String) : List String → Option String
  | [] => none
  | cand :: rest =>
    match exactBoxMatch allBoxes cand with
    | some t => some t
    | none =>
      match suffixBoxMatch allBoxes cand with
      | some t => some t
      | none => findSpamTarget allBoxes rest

/-- Embedding of the target selection in `moveToSpamFolder`: the resolved
folder plus whether `addBox("Spam")` was attempted (its failure is swallowed
by `.catch(() => void 0)`, so the result is `"Spam"` regardless of the
creation outcome). -/
def resolveSpamFolder (allBoxes : List String) : String × Bool :=
  match findSpamTarget allBoxes spamCandidates with
  | some t => (t, false)
  | none => ("Spam", true)

/-- Modelled from the claim's wording (two separate phases): first an exact
full-path pass over the whole priority list, and only if that pass finds
nothing, a trailing-segment pass.  Used to compare the claimed algorithm
with `resolveSpamFolder`. -/
def specResolveSpamFolder (allBoxes : List String) : String × Bool :=
  match spamCandidates.findSome? (exactBoxMatch allBoxes) with
  | some t => (t, false)
  | none =>
    match spamCandidates.findSome? (suffixBoxMatch allBoxes) with
    | some t => (t, false)
    | none => ("Spam", true)

/-! ## Helper lemmas -/

/-- When every relocation succeeds, the live-mail loop yields one outcome per
fetched message, in order. -/
lemma onNewMailsLoop_allOk (c : EmailContent → ScanResult) (t : ℚ) :
    ∀ msgs : List EmailContent, ∃ outs,
      onNewMailsLoop c (fun _ => true) t msgs = .ok outs ∧
      outs.map Prod.fst = msgs.map EmailContent.uid := by
  intro msgs
  induction msgs with
  | nil => exact ⟨[], rfl, rfl⟩
  | cons e rest ih =>
    obtain ⟨outs, h1, h2⟩ := ih
    by_cases h : t ≤ (c e).scam_probability
    · exact ⟨(e.uid, .movedToSpam) :: outs, by simp [onNewMailsLoop, h, h1, Except.map], by simp [h2]⟩
    · exact ⟨(e.uid, .leftInPlace) :: outs, by simp [onNewMailsLoop, h, h1, Except.map], by simp [h2]⟩

/-- The backfill loop always emits exactly one outcome for the head
message. -/
lemma processHistoricalLoop_cons (c : EmailContent → ScanResult)
    (mv : Nat → Bool) (t : ℚ) (lb now : Int) (m : RawMessage)
    (rest : List RawMessage) :
    ∃ o, processHistoricalLoop c mv t lb now (m :: rest) =
      (m.uid, o) :: processHistoricalLoop c mv t lb now rest := by
  simp only [processHistoricalLoop]
  split
  · exact ⟨_, rfl⟩
  · split
    · exact ⟨_, rfl⟩
    · split
      · exact ⟨_, rfl⟩
      · split
        · split
          · exact ⟨_, rfl⟩
          · exact ⟨_, rfl⟩
        · exact ⟨_, rfl⟩

/-- The backfill loop never aborts: it yields one outcome per raw message,
in order. -/
lemma processHistoricalLoop_uids (c : EmailContent → ScanResult)
    (mv : Nat → Bool) (t : ℚ) (lb now : Int) :
    ∀ msgs : List RawMessage,
      (processHistoricalLoop c mv t lb now msgs).map Prod.fst =
        msgs.map RawMessage.uid := by
  intro msgs
  induction msgs with
  | nil => rfl
  | cons m rest ih =>
    obtain ⟨o, ho⟩ := processHistoricalLoop_cons c mv t lb now m rest
    simp [ho, ih]

/-- One call to `scheduleReconnection` either leaves the attempt counter
unchanged or increments it, and it increments only below the bound. -/
lemma scheduleReconnection_att (s : ReconnectState) (r : ℚ) :
    (scheduleReconnection s r).reconnectAttempts = s.reconnectAttempts ∨
    ((scheduleReconnection s r).reconnectAttempts = s.reconnectAttempts + 1 ∧
      s.reconnectAttempts < maxReconnectAttempts) := by
  unfold scheduleReconnection
  split
  · split
    · exact Or.inl rfl
    · exact Or.inl rfl
  · rename_i h
    push_neg at h
    exact Or.inr ⟨rfl, h.2⟩

/-- `scheduleReconnection` preserves the attempt bound. -/
lemma scheduleReconnection_le (s : ReconnectState) (r : ℚ)
    (h : s.reconnectAttempts ≤ maxReconnectAttempts) :
    (scheduleReconnection s r).reconnectAttempts ≤ maxReconnectAttempts := by
  rcases scheduleReconnection_att s r with h' | ⟨h', hlt⟩
  · rw [h']; exact h
  · rw [h']; exact hlt

/-- Every scheduler transition preserves the attempt bound. -/
lemma reconnectStep_le (s : ReconnectState) (e : ReconnectEvent)
    (h : s.reconnectAttempts ≤ maxReconnectAttempts) :
    (reconnectStep s e).reconnectAttempts ≤ maxReconnectAttempts := by
  cases e with
  | failureSignal r =>
    by_cases hrec : s.isReconnecting
    · simpa [reconnectStep, hrec] using h
    · simpa [reconnectStep, hrec] using scheduleReconnection_le s r h
  | startFailure r => exact scheduleReconnection_le s r h
  | timerSuccess =>
    by_cases ht : s.timerPending
    · simp [reconnectStep, ht]
    · simpa [reconnectStep, ht] using h
  | timerFailure r =>
    by_cases ht : s.timerPending
    · have := scheduleReconnection_le
        { s with isReconnecting := false, timerPending := false } r h
      simpa [reconnectStep, ht] using this
    · simpa [reconnectStep, ht] using h

/-- The attempt bound is an inductive invariant of scheduler runs. -/
lemma reconnectRun_le (evs : List ReconnectEvent) :
    ∀ s : ReconnectState, s.reconnectAttempts ≤ maxReconnectAttempts →
      (reconnectRun s evs).reconnectAttempts ≤ maxReconnectAttempts := by
  induction evs with
  | nil => exact fun s h => h
  | cons e rest ih =>
    intro s h
    exact ih (reconnectStep s e) (reconnectStep_le s e h)

/-! ## Claims -/

/-- Claim C1 (refuted; code bug).  The `finally` block of the backfill
branch runs even when the `isBackfilling` guard rejected the trigger, so an
ignored second trigger clears the in-flight flag while the first scan is
still running: after events (trigger, first handler passes guard and starts
scanning, trigger, second handler is rejected and its `finally` clears the
flag) one scan is running with `isBackfilling = false`; a third trigger then
passes the guard and two backfill scans run concurrently. -/
theorem backfill_guard_violation :
    runningScans (backfillRun initialBackfillSystem
      [.trigger, .advance 0, .trigger, .advance 1]) = 1 ∧
    (backfillRun initialBackfillSystem
      [.trigger, .advance 0, .trigger, .advance 1]).isBackfilling = false ∧
    runningScans (backfillRun initialBackfillSystem
      [.trigger, .advance 0, .trigger, .advance 1, .trigger, .advance 2]) = 2 := by
  decide

/-- Claim C2 counterexample.  In the live-mail loop (`onNewMails`) there is
no per-message `try`/`catch`: when relocation of the first message throws,
the loop aborts with that error and the second message is never visited,
contradicting "processing continues with the next message". -/
theorem live_batch_abort_counterexample :
    onNewMailsLoop (fun _ => { scam_probability := 92 }) (fun _ => false) 80
      [{ uid := 1, subject := "s1", fromAddr := "a@x", date := 0, text := [], html := false },
       { uid := 2, subject := "s2", fromAddr := "b@x", date := 0, text := [], html := false }]
      = Except.error 1 := by
  rfl

/-- Claim C2 as amended: in a backfill scan a per-message failure (missing
part, parse error, relocation error) is caught, logged and the loop
continues, so every message yields exactly one outcome; in a live new-mail
batch a relocation error propagates and aborts the remainder of the batch
(classification itself never throws, as `isScamEmail` fails soft).  No
failed message is retried in either path. -/
theorem batch_error_isolation :
    (∀ (c : EmailContent → ScanResult) (mv : Nat → Bool) (t : ℚ)
       (lb now : Int) (msgs : List RawMessage),
      (processHistoricalLoop c mv t lb now msgs).map Prod.fst =
        msgs.map RawMessage.uid) ∧
    (∀ (c : EmailContent → ScanResult) (mv : Nat → Bool) (t : ℚ)
       (e : EmailContent) (rest : List EmailContent),
      t ≤ (c e).scam_probability → mv e.uid = false →
      onNewMailsLoop c mv t (e :: rest) = Except.error e.uid) := by
  constructor
  · intro c mv t lb now msgs
    exact processHistoricalLoop_uids c mv t lb now msgs
  · intro c mv t e rest h1 h2
    simp [onNewMailsLoop, h1, h2]

/-- Witness for `batch_error_isolation` at concrete inputs. -/
theorem batch_error_isolation_witness :
    (processHistoricalLoop (fun _ => { scam_probability := 92 }) (fun _ => false) 80 0 0
      [{ uid := 7, hasAllPart := true,
         parse := some { date := some 3, subject := none, fromText := none,
                         text := none, html := false } }]).map Prod.fst = [7] ∧
    onNewMailsLoop (fun _ => { scam_probability := 92 }) (fun _ => false) 80
      [{ uid := 7, subject := "s", fromAddr := "a@x", date := 0, text := [], html := false }]
      = Except.error 7 := by
  refine ⟨batch_error_isolation.1 _ _ _ _ _ _, ?_⟩
  exact batch_error_isolation.2 _ _ _ _ [] (by decide) rfl

/-- Claim C3 counterexample.  The in-memory assignment
`this.emailsAnalyzedUntil = date` sits after `fs.writeFileSync` inside the
`try` of `updateAnalyzedUntil`, so when the write throws, the catch logs the
failure but the in-memory watermark stays at its old value instead of
advancing to the new instant. -/
theorem watermark_failure_counterexample :
    ((updateAnalyzedUntil
      { configPath := some "accounts.json", accountUser := some "u@x",
        label := none, emailsAnalyzedUntil := some 5 }
      { readParse := .ok (some [{ user := some "u@x", label := none,
                                  emailsAnalyzedUntil := some 5 }]),
        writeOk := false } 7).2 = true) ∧
    ((updateAnalyzedUntil
      { configPath := some "accounts.json", accountUser := some "u@x",
        label := none, emailsAnalyzedUntil := some 5 }
      { readParse := .ok (some [{ user := some "u@x", label := none,
                                  emailsAnalyzedUntil := some 5 }]),
        writeOk := false } 7).1.emailsAnalyzedUntil ≠ some 7) := by
  constructor
  · rfl
  · decide

/-- Claim C3 as amended: when any step of the watermark persistence attempt
throws (read, parse or write), the failure is logged and the watcher state —
including the in-memory `emailsAnalyzedUntil` — is left unchanged; the
in-memory watermark advances to the new instant exactly when the whole
read–locate–write sequence succeeds. -/
theorem watermark_persistence_behaviour :
    (∀ (st : WatcherPersist) (env : FsEnv) (d : Int),
      (updateAnalyzedUntil st env d).2 = true →
      (updateAnalyzedUntil st env d).1 = st) ∧
    (∀ (st : WatcherPersist) (env : FsEnv) (d : Int),
      (updateAnalyzedUntil st env d).1 = st ∨
      (updateAnalyzedUntil st env d).1 = { st with emailsAnalyzedUntil := some d }) ∧
    (∀ (st : WatcherPersist) (env : FsEnv) (d : Int) (p : String)
       (entries : List ConfigEntry) (i : Nat),
      st.configPath = some p → env.readParse = .ok (some entries) →
      entries.findIdx? (accountMatches st) = some i → env.writeOk = true →
      (updateAnalyzedUntil st env d).1.emailsAnalyzedUntil = some d) := by
  refine ⟨?_, ?_, ?_⟩
  · intro st env d
    unfold updateAnalyzedUntil
    split
    · exact fun _ => rfl
    · split
      · exact fun _ => rfl
      · exact fun _ => rfl
      · split
        · exact fun _ => rfl
        · split
          · simp
          · exact fun _ => rfl
  · intro st env d
    unfold updateAnalyzedUntil
    split
    · exact Or.inl rfl
    · split
      · exact Or.inl rfl
      · exact Or.inl rfl
      · split
        · exact Or.inl rfl
        · split
          · exact Or.inr rfl
          · exact Or.inl rfl
  · intro st env d p entries i h1 h2 h3 h4
    simp [updateAnalyzedUntil, h1, h2, h3, h4]

/-- Witness for `watermark_persistence_behaviour` at concrete inputs. -/
theorem watermark_persistence_behaviour_witness :
    (updateAnalyzedUntil
      { configPath := some "accounts.json", accountUser := some "u@x",
        label := none, emailsAnalyzedUntil := some 5 }
      { readParse := .ok (some [{ user := some "u@x", label := none,
                                  emailsAnalyzedUntil := some 5 }]),
        writeOk := true } 7).1.emailsAnalyzedUntil = some 7 := by
  exact watermark_persistence_behaviour.2.2 _ _ 7 "accounts.json" _ 0
    rfl rfl (by decide) rfl

/-- Claim C4: the `mail` handler compares the notified count with the
freshly queried total (`getTotalMessages` is called anew inside the
handler); equality routes to the backfill path, inequality fetches exactly
the inclusive sequence range `[total - count + 1, total]` and runs the
classification+relocation loop over that batch, which (when no relocation
throws) yields one outcome per fetched message before the handler
returns. -/
theorem mail_handler_routing (numberOfEmails totalMessages : Int)
    (classify : EmailContent → ScanResult) (threshold : ℚ)
    (moveOk : Nat → Bool) (fetch : Int → Int → List EmailContent) :
    (totalMessages = numberOfEmails →
      mailHandlerRoute numberOfEmails totalMessages = .backfill) ∧
    (totalMessages ≠ numberOfEmails →
      mailHandlerRoute numberOfEmails totalMessages =
        .live (totalMessages - numberOfEmails + 1) totalMessages) ∧
    (onNewMails classify moveOk threshold fetch totalMessages numberOfEmails =
      onNewMailsLoop classify moveOk threshold
        (fetch (totalMessages - numberOfEmails + 1) totalMessages)) ∧
    (∃ outs,
      onNewMails classify (fun _ => true) threshold fetch totalMessages numberOfEmails
        = .ok outs ∧
      outs.map Prod.fst =
        (fetch (totalMessages - numberOfEmails + 1) totalMessages).map
          EmailContent.uid) := by
  refine ⟨?_, ?_, rfl, ?_⟩
  · intro h
    simp [mailHandlerRoute, h]
  · intro h
    simp [mailHandlerRoute, h]
  · exact onNewMailsLoop_allOk classify threshold _

/-- Witness for `mail_handler_routing` at concrete inputs. -/
theorem mail_handler_routing_witness :
    mailHandlerRoute 3 3 = .backfill ∧
    mailHandlerRoute 2 10 = .live 9 10 := by
  constructor
  · exact (mail_handler_routing 3 3 (fun _ => { scam_probability := 0 }) 80
      (fun _ => true) (fun _ _ => [])).1 rfl
  · exact (mail_handler_routing 2 10 (fun _ => { scam_probability := 0 }) 80
      (fun _ => true) (fun _ _ => [])).2.1 (by decide)

/-- Claim C5: along every event sequence the reconnect attempt counter never
exceeds `maxReconnectAttempts = 5`; a successful `connect()` in the timer
callback resets it to zero; failure-driven events never decrease it (so the
reset happens exactly on success); and once the bound is reached, a further
failure signal (with no reconnect in flight) only logs exhaustion — the
state is unchanged except for that log, so no new timer is scheduled. -/
theorem reconnect_counter_properties :
    (∀ evs : List ReconnectEvent,
      (reconnectRun initialReconnectState evs).reconnectAttempts ≤
        maxReconnectAttempts) ∧
    (∀ s : ReconnectState, s.timerPending = true →
      (reconnectStep s .timerSuccess).reconnectAttempts = 0) ∧
    (∀ (s : ReconnectState) (r : ℚ),
      s.reconnectAttempts ≤ (reconnectStep s (.failureSignal r)).reconnectAttempts ∧
      s.reconnectAttempts ≤ (reconnectStep s (.startFailure r)).reconnectAttempts ∧
      s.reconnectAttempts ≤ (reconnectStep s (.timerFailure r)).reconnectAttempts) ∧
    (∀ (s : ReconnectState) (r : ℚ),
      maxReconnectAttempts ≤ s.reconnectAttempts → s.isReconnecting = false →
      reconnectStep s (.failureSignal r) = { s with exhaustionLogged := true }) := by
  refine ⟨fun evs => reconnectRun_le evs _ (Nat.zero_le _), ?_, ?_, ?_⟩
  · intro s h
    simp [reconnectStep, h]
  · intro s r
    have hmono : ∀ s' : ReconnectState,
        s'.reconnectAttempts ≤ (scheduleReconnection s' r).reconnectAttempts := by
      intro s'
      rcases scheduleReconnection_att s' r with h' | ⟨h', _⟩
      · rw [h']
      · rw [h']; exact Nat.le_succ _
    refine ⟨?_, hmono s, ?_⟩
    · by_cases hrec : s.isReconnecting
      · simp [reconnectStep, hrec]
      · simpa [reconnectStep, hrec] using hmono s
    · by_cases ht : s.timerPending
      · have := hmono { s with isReconnecting := false, timerPending := false }
        simpa [reconnectStep, ht] using this
      · simp [reconnectStep, ht]
  · intro s r h1 h2
    simp [reconnectStep, scheduleReconnection, h1, h2]

/-- Witness for `reconnect_counter_properties` at concrete inputs. -/
theorem reconnect_counter_properties_witness :
    (reconnectRun initialReconnectState
      [.failureSignal 0, .timerFailure 0, .timerFailure 0, .timerFailure 0,
       .timerFailure 0, .timerFailure 0, .failureSignal 0]).reconnectAttempts ≤
      maxReconnectAttempts ∧
    (reconnectStep
      { reconnectAttempts := 3, isReconnecting := true, timerPending := true,
        lastDelay := none, exhaustionLogged := false }
      .timerSuccess).reconnectAttempts = 0 ∧
    reconnectStep
      { reconnectAttempts := 5, isReconnecting := false, timerPending := false,
        lastDelay := none, exhaustionLogged := false } (.failureSignal 0) =
      { reconnectAttempts := 5, isReconnecting := false, timerPending := false,
        lastDelay := none, exhaustionLogged := true } := by
  refine ⟨reconnect_counter_properties.1 _, ?_, ?_⟩
  · exact reconnect_counter_properties.2.1 _ rfl
  · exact reconnect_counter_properties.2.2.2 _ 0 (by decide) rfl

/-- Claim C6: when the scheduler actually schedules (no reconnect in flight,
counter below the bound), the new attempt number `n` satisfies `1 ≤ n ≤ 5`
and the delay handed to `setTimeout` is
`min(1000 · 2^(n-1) + j, 30000)` for `j = Math.random() · 1000 ∈ [0, 1000)`. -/
theorem reconnect_delay_formula (s : ReconnectState) (r : ℚ) (n : Nat)
    (hn : n = s.reconnectAttempts + 1)
    (hrec : s.isReconnecting = false)
    (hatt : s.reconnectAttempts < maxReconnectAttempts)
    (hr0 : 0 ≤ r) (hr1 : r < 1) :
    1 ≤ n ∧ n ≤ 5 ∧
    ∃ j : ℚ, 0 ≤ j ∧ j < 1000 ∧
      (scheduleReconnection s r).reconnectAttempts = n ∧
      (scheduleReconnection s r).lastDelay =
        some (min (1000 * 2 ^ (n - 1) + j) 30000) := by
  subst hn
  have hcond : ¬(s.isReconnecting = true ∨
      maxReconnectAttempts ≤ s.reconnectAttempts) := by
    rw [hrec]
    simp only [Bool.false_eq_true, false_or, not_le]
    exact hatt
  have h5 : s.reconnectAttempts + 1 ≤ 5 := by
    have h' : s.reconnectAttempts < maxReconnectAttempts := hatt
    simp only [maxReconnectAttempts] at h'
    omega
  refine ⟨Nat.le_add_left 1 _, h5, r * 1000, by positivity, by linarith, ?_, ?_⟩
  · simp [scheduleReconnection, hcond]
  · simp [scheduleReconnection, hcond, initialReconnectDelay]

/-- Witness for `reconnect_delay_formula` at concrete input. -/
theorem reconnect_delay_formula_witness :
    1 ≤ 1 ∧ 1 ≤ 5 ∧
    ∃ j : ℚ, 0 ≤ j ∧ j < 1000 ∧
      (scheduleReconnection initialReconnectState (1/2)).reconnectAttempts = 1 ∧
      (scheduleReconnection initialReconnectState (1/2)).lastDelay =
        some (min (1000 * 2 ^ (1 - 1) + j) 30000) := by
  exact reconnect_delay_formula initialReconnectState (1/2) 1 rfl rfl
    (by decide) (by norm_num) (by norm_num)

/-- The candidate loop equals a single pass taking, per candidate, the exact
match first and the trailing-segment match second. -/
lemma findSpamTarget_eq (boxes : List String) :
    ∀ cands, findSpamTarget boxes cands =
      cands.findSome? (fun c =>
        (exactBoxMatch boxes c).orElse (fun _ => suffixBoxMatch boxes c)) := by
  intro cands
  induction cands with
  | nil => rfl
  | cons c rest ih =>
    simp only [findSpamTarget, List.findSome?]
    cases he : exactBoxMatch boxes c with
    | some t => simp [he, Option.orElse]
    | none =>
      cases hs : suffixBoxMatch boxes c with
      | some t => simp [he, hs, Option.orElse]
      | none => simp [he, hs, Option.orElse, ih]

/-- A resolved target always names an existing folder. -/
lemma findSpamTarget_mem (boxes : List String) :
    ∀ cands t, findSpamTarget boxes cands = some t → t ∈ boxes := by
  intro cands
  induction cands with
  | nil => intro t h; cases h
  | cons c rest ih =>
    intro t h
    simp only [findSpamTarget] at h
    cases he : exactBoxMatch boxes c with
    | some t' =>
      rw [he] at h
      cases h
      have := List.mem_of_find?_eq_some he
      exact List.mem_reverse.mp this
    | none =>
      rw [he] at h
      cases hs : suffixBoxMatch boxes c with
      | some t' =>
        rw [hs] at h
        cases h
        exact List.mem_of_find?_eq_some hs
      | none =>
        rw [hs] at h
        exact ih t h

/-- When the loop finds nothing, no candidate matches either way. -/
lemma findSpamTarget_none (boxes : List String) :
    ∀ cands, findSpamTarget boxes cands = none →
      ∀ c ∈ cands, exactBoxMatch boxes c = none ∧ suffixBoxMatch boxes c = none := by
  intro cands
  induction cands with
  | nil => intro _ c hc; cases hc
  | cons c0 rest ih =>
    intro h c hc
    simp only [findSpamTarget] at h
    cases he : exactBoxMatch boxes c0 with
    | some t' => rw [he] at h; cases h
    | none =>
      rw [he] at h
      cases hs : suffixBoxMatch boxes c0 with
      | some t' => rw [hs] at h; cases h
      | none =>
        rw [hs] at h
        rcases List.mem_cons.mp hc with hc0 | hcr
        · subst hc0; exact ⟨he, hs⟩
        · exact ih h c hcr

/-- Claim C7 counterexample.  The candidate loop tries the trailing-segment
match for an earlier candidate before the exact match of a later candidate:
with folders `["INBOX/Spam", "Junk"]` the candidate `junk` has an exact
full-path match (`Junk`), yet the resolver returns the trailing-segment
match `INBOX/Spam` found for the earlier candidate `spam`.  The claimed
algorithm (a whole exact-match pass before any suffix matching) returns
`Junk` instead. -/
theorem resolver_phase_order_counterexample :
    "junk" ∈ spamCandidates ∧
    exactBoxMatch ["INBOX/Spam", "Junk"] "junk" = some "Junk" ∧
    resolveSpamFolder ["INBOX/Spam", "Junk"] = ("INBOX/Spam", false) ∧
    specResolveSpamFolder ["INBOX/Spam", "Junk"] = ("Junk", false) := by
  refine ⟨by decide, by decide, by decide, by decide⟩

/-- Claim C7 as amended: the resolver walks the priority list candidate by
candidate, trying for each candidate the case-insensitive exact full-path
match first and the case-insensitive trailing-segment match second, taking
the first hit; any hit is an existing folder of the tree; and when no
candidate matches either way it answers the top-level `Spam` folder with a
creation attempt whose failure is tolerated (the result is `"Spam"`
regardless of the creation outcome). -/
theorem resolver_candidate_order (boxes : List String) :
    (resolveSpamFolder boxes =
      match spamCandidates.findSome? (fun c =>
          (exactBoxMatch boxes c).orElse (fun _ => suffixBoxMatch boxes c)) with
      | some t => (t, false)
      | none => ("Spam", true)) ∧
    (∀ t, resolveSpamFolder boxes = (t, false) → t ∈ boxes) ∧
    (resolveSpamFolder boxes = ("Spam", true) →
      ∀ c ∈ spamCandidates,
        exactBoxMatch boxes c = none ∧ suffixBoxMatch boxes c = none) := by
  refine ⟨?_, ?_, ?_⟩
  · simp only [resolveSpamFolder, findSpamTarget_eq boxes spamCandidates]
  · intro t h
    simp only [resolveSpamFolder] at h
    cases hf : findSpamTarget boxes spamCandidates with
    | some t' =>
      rw [hf] at h
      cases h
      exact findSpamTarget_mem boxes spamCandidates t hf
    | none =>
      rw [hf] at h
      cases h
  · intro h
    simp only [resolveSpamFolder] at h
    cases hf : findSpamTarget boxes spamCandidates with
    | some t' => rw [hf] at h; cases h
    | none => exact findSpamTarget_none boxes spamCandidates hf

/-- Witness for `resolver_candidate_order` at concrete inputs (including the
spec's own scenario: `INBOX/Junk` is found via the trailing segment and is a
real folder, and an empty tree yields the created `Spam` with no candidate
matching). -/
theorem resolver_candidate_order_witness :
    "INBOX/Junk" ∈ ["INBOX", "INBOX/Junk"] ∧
    (exactBoxMatch ([] : List String) "spam" = none ∧
     suffixBoxMatch ([] : List String) "spam" = none) := by
  constructor
  · exact (resolver_candidate_order ["INBOX", "INBOX/Junk"]).2.1 "INBOX/Junk"
      (by decide)
  · exact (resolver_candidate_order []).2.2 (by decide) "spam" (by decide)

/-- Claim C8: in the backfill loop, a fetched message whose parsed timestamp
is strictly before the watermark `lowerBound` is skipped before the pipeline
runs — its outcome is `skippedOld` for every classifier and relocation
oracle, so classification is never consulted — and a message with timestamp
at or after the watermark is not excluded by this filter (its outcome is a
classification outcome, never `skippedOld`).  The fetched list is arbitrary,
covering messages the day-granular SINCE search returned anyway. -/
theorem backfill_watermark_filter
    (classify : EmailContent → ScanResult) (moveOk : Nat → Bool)
    (threshold : ℚ) (lowerBound now : Int) (m : RawMessage) (p : ParsedMail)
    (rest : List RawMessage)
    (hall : m.hasAllPart = true) (hp : m.parse = some p) :
    (p.date.getD now < lowerBound →
      ∀ (c' : EmailContent → ScanResult) (mv' : Nat → Bool) (t' : ℚ),
        processHistoricalLoop c' mv' t' lowerBound now (m :: rest) =
          (m.uid, .skippedOld) ::
            processHistoricalLoop c' mv' t' lowerBound now rest) ∧
    (¬ p.date.getD now < lowerBound →
      ∃ o, o ≠ HistOutcome.skippedOld ∧ o ≠ .skippedNoAllPart ∧ o ≠ .parseError ∧
        processHistoricalLoop classify moveOk threshold lowerBound now (m :: rest) =
          (m.uid, o) ::
            processHistoricalLoop classify moveOk threshold lowerBound now rest) := by
  constructor
  · intro hd c' mv' t'
    have hd' : (histEmailContent m p now).date < lowerBound := by
      simpa [histEmailContent] using hd
    simp [processHistoricalLoop, hall, hp, hd']
  · intro hd
    have hd' : ¬ (histEmailContent m p now).date < lowerBound := by
      simpa [histEmailContent] using hd
    by_cases hc : threshold ≤ (classify (histEmailContent m p now)).scam_probability
    · by_cases hm : moveOk m.uid
      · exact ⟨.movedToSpam, by simp, by simp, by simp,
          by simp [processHistoricalLoop, hall, hp, hd', hc, hm]⟩
      · exact ⟨.relocationError, by simp, by simp, by simp,
          by simp [processHistoricalLoop, hall, hp, hd', hc, hm]⟩
    · exact ⟨.leftInPlace, by simp, by simp, by simp,
        by simp [processHistoricalLoop, hall, hp, hd', hc]⟩

/-- Witness for `backfill_watermark_filter` at concrete inputs. -/
theorem backfill_watermark_filter_witness :
    processHistoricalLoop (fun _ => { scam_probability := 0 }) (fun _ => true)
      80 5 0
      [{ uid := 1, hasAllPart := true,
         parse := some { date := some 3, subject := none, fromText := none,
                         text := none, html := false } }] = [(1, .skippedOld)] ∧
    ∃ o, o ≠ HistOutcome.skippedOld ∧ o ≠ .skippedNoAllPart ∧ o ≠ .parseError ∧
      processHistoricalLoop (fun _ => { scam_probability := 0 }) (fun _ => true)
        80 5 0
        [{ uid := 2, hasAllPart := true,
           parse := some { date := some 9, subject := none, fromText := none,
                           text := none, html := false } }] = [(2, o)] := by
  constructor
  · exact (backfill_watermark_filter (fun _ => { scam_probability := 0 })
      (fun _ => true) 80 5 0 _ _ [] rfl rfl).1 (by decide)
      (fun _ => { scam_probability := 0 }) (fun _ => true) 80
  · exact (backfill_watermark_filter (fun _ => { scam_probability := 0 })
      (fun _ => true) 80 5 0 _ _ [] rfl rfl).2 (by decide)

/-- Claim C9: in both the live and the backfill loop, a processed message is
moved to the quarantine folder exactly when the classifier's probability is
at or above the threshold (`result.scam_probability >= this.scamThreshold`),
otherwise it is left in place; in particular probability 92 against
threshold 80 relocates and probability 50 does not. -/
theorem scam_threshold_decision
    (classify : EmailContent → ScanResult) (threshold : ℚ)
    (e : EmailContent) (rest : List EmailContent)
    (m : RawMessage) (p : ParsedMail) (hrest : List RawMessage)
    (lowerBound now : Int)
    (hall : m.hasAllPart = true) (hp : m.parse = some p)
    (hd : ¬ p.date.getD now < lowerBound) :
    (onNewMailsLoop classify (fun _ => true) threshold (e :: rest) =
      (onNewMailsLoop classify (fun _ => true) threshold rest).map
        (fun l => (e.uid,
          if threshold ≤ (classify e).scam_probability then MsgOutcome.movedToSpam
          else MsgOutcome.leftInPlace) :: l)) ∧
    (processHistoricalLoop classify (fun _ => true) threshold lowerBound now
        (m :: hrest) =
      (m.uid,
        if threshold ≤ (classify (histEmailContent m p now)).scam_probability
        then HistOutcome.movedToSpam else HistOutcome.leftInPlace) ::
        processHistoricalLoop classify (fun _ => true) threshold lowerBound now
          hrest) ∧
    (onNewMailsLoop (fun _ => { scam_probability := 92 }) (fun _ => true) 80 [e] =
      .ok [(e.uid, .movedToSpam)]) ∧
    (onNewMailsLoop (fun _ => { scam_probability := 50 }) (fun _ => true) 80 [e] =
      .ok [(e.uid, .leftInPlace)]) := by
  refine ⟨?_, ?_, ?_, ?_⟩
  · by_cases hc : threshold ≤ (classify e).scam_probability
    · simp [onNewMailsLoop, hc]
    · simp [onNewMailsLoop, hc]
  · have hd' : ¬ (histEmailContent m p now).date < lowerBound := by
      simpa [histEmailContent] using hd
    by_cases hc : threshold ≤ (classify (histEmailContent m p now)).scam_probability
    · simp [processHistoricalLoop, hall, hp, hd', hc]
    · simp [processHistoricalLoop, hall, hp, hd', hc]
  · norm_num [onNewMailsLoop, Except.map]
  · norm_num [onNewMailsLoop, Except.map]

/-- Witness for `scam_threshold_decision` at concrete inputs. -/
theorem scam_threshold_decision_witness :
    onNewMailsLoop (fun _ => { scam_probability := 92 }) (fun _ => true) 80
      [{ uid := 4, subject := "s", fromAddr := "a@x", date := 0, text := [],
         html := false }] = .ok [(4, .movedToSpam)] ∧
    onNewMailsLoop (fun _ => { scam_probability := 50 }) (fun _ => true) 80
      [{ uid := 4, subject := "s", fromAddr := "a@x", date := 0, text := [],
         html := false }] = .ok [(4, .leftInPlace)] := by
  constructor
  · exact (scam_threshold_decision (fun _ => { scam_probability := 92 }) 80
      { uid := 4, subject := "s", fromAddr := "a@x", date := 0, text := [],
        html := false } []
      { uid := 1, hasAllPart := true,
        parse := some { date := some 9, subject := none, fromText := none,
                        text := none, html := false } }
      { date := some 9, subject := none, fromText := none, text := none,
        html := false } [] 5 0 rfl rfl (by decide)).2.2.1
  · exact (scam_threshold_decision (fun _ => { scam_probability := 50 }) 80
      { uid := 4, subject := "s", fromAddr := "a@x", date := 0, text := [],
        html := false } []
      { uid := 1, hasAllPart := true,
        parse := some { date := some 9, subject := none, fromText := none,
                        text := none, html := false } }
      { date := some 9, subject := none, fromText := none, text := none,
        html := false } [] 5 0 rfl rfl (by decide)).2.2.2

/-- Relation between adjacent characters: not both whitespace.  Used to
state "no two consecutive whitespace characters". -/
def noDoubleWs (a b : Char) : Prop :=
  ¬(isJsWhitespace a = true ∧ isJsWhitespace b = true)

/-- Characters of the control-replacement output are spaces or non-control
characters of the input. -/
lemma mem_replaceControls {c : Char} {l : List Char}
    (h : c ∈ replaceControls l) :
    c = ' ' ∨ (c ∈ l ∧ isStrippedControl c = false) := by
  obtain ⟨a, ha, hv⟩ := List.mem_map.mp h
  by_cases hc : isStrippedControl a
  · rw [if_pos hc] at hv
    exact Or.inl hv.symm
  · rw [if_neg hc] at hv
    subst hv
    exact Or.inr ⟨ha, by simpa using hc⟩

/-- Characters of the whitespace-collapse output are spaces or non-whitespace
characters of the input. -/
lemma mem_collapseWs : ∀ {l : List Char} {c : Char}, c ∈ collapseWs l →
    c = ' ' ∨ (c ∈ l ∧ isJsWhitespace c = false) := by
  intro l
  induction l with
  | nil => intro c h; cases h
  | cons a as ih =>
    intro c h
    cases as with
    | nil =>
      by_cases hw : isJsWhitespace a
      · rw [collapseWs, if_pos hw] at h
        rcases List.mem_singleton.mp h with h1
        exact Or.inl h1
      · rw [collapseWs, if_neg hw] at h
        rcases List.mem_singleton.mp h with h1
        subst h1
        exact Or.inr ⟨List.mem_singleton_self _, by simpa using hw⟩
    | cons d ds =>
      by_cases hw : isJsWhitespace a
      · by_cases hd : isJsWhitespace d
        · rw [collapseWs, if_pos hw, if_pos hd] at h
          rcases ih h with h1 | ⟨h2, h3⟩
          · exact Or.inl h1
          · exact Or.inr ⟨List.mem_cons_of_mem _ h2, h3⟩
        · rw [collapseWs, if_pos hw, if_neg hd] at h
          rcases List.mem_cons.mp h with h1 | h2
          · exact Or.inl h1
          · rcases ih h2 with h3 | ⟨h4, h5⟩
            · exact Or.inl h3
            · exact Or.inr ⟨List.mem_cons_of_mem _ h4, h5⟩
      · rw [collapseWs, if_neg hw] at h
        rcases List.mem_cons.mp h with h1 | h2
        · subst h1
          exact Or.inr ⟨List.mem_cons_self _ _, by simpa using hw⟩
        · rcases ih h2 with h3 | ⟨h4, h5⟩
          · exact Or.inl h3
          · exact Or.inr ⟨List.mem_cons_of_mem _ h4, h5⟩

/-- The collapse output of a list headed by a non-whitespace character keeps
that head. -/
lemma collapseWs_head_of_not_ws {d : Char} {cs : List Char}
    (hd : ¬ isJsWhitespace d = true) :
    (collapseWs (d :: cs)).head? = some d := by
  cases cs with
  | nil => rw [collapseWs, if_neg hd]; rfl
  | cons e es => rw [collapseWs, if_neg hd]; rfl

/-- The whitespace-collapse output has no two adjacent whitespace
characters. -/
lemma chain'_collapseWs : ∀ l : List Char, List.Chain' noDoubleWs (collapseWs l) := by
  intro l
  induction l with
  | nil => simp [collapseWs]
  | cons a as ih =>
    cases as with
    | nil =>
      by_cases hw : isJsWhitespace a
      · rw [collapseWs, if_pos hw]; simp
      · rw [collapseWs, if_neg hw]; simp
    | cons d ds =>
      by_cases hw : isJsWhitespace a
      · by_cases hd : isJsWhitespace d
        · rw [collapseWs, if_pos hw, if_pos hd]
          exact ih
        · rw [collapseWs, if_pos hw, if_neg hd]
          refine List.chain'_cons'.mpr ⟨?_, ih⟩
          intro y hy
          rw [collapseWs_head_of_not_ws hd] at hy
          cases hy
          exact fun hcon => hd hcon.2
      · rw [collapseWs, if_neg hw]
        refine List.chain'_cons'.mpr ⟨?_, ih⟩
        intro y _
        exact fun hcon => hw hcon.1

/-- On a list whose whitespace characters are all single spaces separated by
non-whitespace, collapsing is the identity. -/
lemma collapseWs_eq_self : ∀ {l : List Char},
    (∀ c ∈ l, isJsWhitespace c = true → c = ' ') →
    List.Chain' noDoubleWs l → collapseWs l = l := by
  intro l
  induction l with
  | nil => intro _ _; rfl
  | cons a as ih =>
    intro hsp hch
    cases as with
    | nil =>
      by_cases hw : isJsWhitespace a
      · rw [collapseWs, if_pos hw, hsp a (List.mem_singleton_self _) hw]
      · rw [collapseWs, if_neg hw]
    | cons d ds =>
      have hch' := List.chain'_cons'.mp hch
      have htail := ih (fun c hc hwc => hsp c (List.mem_cons_of_mem _ hc) hwc) hch'.2
      by_cases hw : isJsWhitespace a
      · have hd : ¬ isJsWhitespace d = true := by
          intro hdt
          exact hch'.1 d rfl ⟨hw, hdt⟩
        rw [collapseWs, if_pos hw, if_neg hd, htail,
          hsp a (List.mem_cons_self _ _) hw]
      · rw [collapseWs, if_neg hw, htail]

/-- The head of a `dropWhile` result does not satisfy the dropped
predicate. -/
lemma dropWhile_head_false (p : Char → Bool) : ∀ (l : List Char) (d : Char)
    (ds : List Char), l.dropWhile p = d :: ds → p d = false := by
  intro l
  induction l with
  | nil => intro d ds h; cases h
  | cons a as ih =>
    intro d ds h
    by_cases hp : p a
    · rw [List.dropWhile_cons, if_pos hp] at h
      exact ih d ds h
    · rw [List.dropWhile_cons, if_neg hp] at h
      cases h
      simpa using hp

/-- A nonempty `dropWhile` result keeps the original last element. -/
lemma getLast?_dropWhile (p : Char → Bool) : ∀ (l : List Char) (d : Char)
    (ds : List Char), l.dropWhile p = d :: ds →
      (d :: ds).getLast? = l.getLast? := by
  intro l
  induction l with
  | nil => intro d ds h; cases h
  | cons a as ih =>
    intro d ds h
    by_cases hp : p a
    · rw [List.dropWhile_cons, if_pos hp] at h
      rw [ih d ds h]
      cases as with
      | nil => cases h
      | cons b bs => rw [List.getLast?_cons_cons]
    · rw [List.dropWhile_cons, if_neg hp] at h
      cases h
      rfl

/-- The trimmed text never starts with whitespace. -/
lemma trimWs_head (l : List Char) :
    ∀ d, (trimWs l).head? = some d → isJsWhitespace d = false := by
  intro d hd
  unfold trimWs at hd
  rw [List.head?_reverse] at hd
  cases hB : (l.dropWhile isJsWhitespace).reverse.dropWhile isJsWhitespace with
  | nil => rw [hB] at hd; cases hd
  | cons b bs =>
    rw [hB, getLast?_dropWhile isJsWhitespace _ b bs hB,
      List.getLast?_reverse] at hd
    cases hA : l.dropWhile isJsWhitespace with
    | nil => rw [hA] at hd; cases hd
    | cons a as =>
      rw [hA] at hd
      have had : a = d := by simpa using hd
      subst had
      exact dropWhile_head_false isJsWhitespace l a as hA

/-- The trimmed text never ends with whitespace. -/
lemma trimWs_last (l : List Char) :
    ∀ d, (trimWs l).getLast? = some d → isJsWhitespace d = false := by
  intro d hd
  unfold trimWs at hd
  rw [List.getLast?_reverse] at hd
  cases hB : (l.dropWhile isJsWhitespace).reverse.dropWhile isJsWhitespace with
  | nil => rw [hB] at hd; cases hd
  | cons b bs =>
    rw [hB] at hd
    have hbd : b = d := by simpa using hd
    subst hbd
    exact dropWhile_head_false isJsWhitespace _ b bs hB

/-- Trimming a text with non-whitespace ends is the identity. -/
lemma trimWs_eq_self {l : List Char}
    (h1 : ∀ d, l.head? = some d → isJsWhitespace d = false)
    (h2 : ∀ d, l.getLast? = some d → isJsWhitespace d = false) :
    trimWs l = l := by
  have hA : l.dropWhile isJsWhitespace = l := by
    cases l with
    | nil => rfl
    | cons a as => rw [List.dropWhile_cons, if_neg (by simp [h1 a rfl])]
  unfold trimWs
  rw [hA]
  have hB : l.reverse.dropWhile isJsWhitespace = l.reverse := by
    cases hr : l.reverse with
    | nil => rfl
    | cons b bs =>
      have hlast : l.getLast? = some b := by
        rw [← List.head?_reverse, hr]
        rfl
      rw [List.dropWhile_cons, if_neg (by simp [h2 b hlast])]
  rw [hB, List.reverse_reverse]

/-- Trim only keeps characters of the input. -/
lemma mem_trimWs {l : List Char} {c : Char} (h : c ∈ trimWs l) : c ∈ l := by
  unfold trimWs at h
  rw [List.mem_reverse] at h
  have h2 := (List.dropWhile_suffix isJsWhitespace).sublist.subset h
  rw [List.mem_reverse] at h2
  exact (List.dropWhile_suffix isJsWhitespace).sublist.subset h2

/-- Trim preserves the no-adjacent-whitespace property. -/
lemma chain'_trimWs {l : List Char} (h : List.Chain' noDoubleWs l) :
    List.Chain' noDoubleWs (trimWs l) := by
  have hswap : ∀ (lx : List Char), List.Chain' noDoubleWs lx →
      List.Chain' (flip noDoubleWs) lx := by
    intro lx hx
    exact hx.imp (fun a b hab => fun hc => hab ⟨hc.2, hc.1⟩)
  unfold trimWs
  have s1 : List.Chain' noDoubleWs (l.dropWhile isJsWhitespace) :=
    h.suffix (List.dropWhile_suffix _)
  have s2 : List.Chain' noDoubleWs (l.dropWhile isJsWhitespace).reverse :=
    List.chain'_reverse.mpr (hswap _ s1)
  have s3 : List.Chain' noDoubleWs
      ((l.dropWhile isJsWhitespace).reverse.dropWhile isJsWhitespace) :=
    s2.suffix (List.dropWhile_suffix _)
  exact List.chain'_reverse.mpr (hswap _ s3)

/-- Replacing controls over control-free text is the identity. -/
lemma replaceControls_eq_self {l : List Char}
    (h : ∀ c ∈ l, isStrippedControl c = false) : replaceControls l = l := by
  unfold replaceControls
  rw [List.map_congr_left (g := id) (fun a ha => by rw [if_neg (by simp [h a ha])]; rfl)]
  exact List.map_id l

/-- Sanitised text contains no stripped control character, and all its
whitespace characters are plain spaces. -/
lemma sanitizeText_chars {t : List Char} {c : Char} (h : c ∈ sanitizeText t) :
    isStrippedControl c = false ∧ (isJsWhitespace c = true → c = ' ') := by
  unfold sanitizeText at h
  by_cases ht : t = []
  · rw [if_pos ht] at h; cases h
  · rw [if_neg ht] at h
    have h1 := mem_trimWs h
    rcases mem_collapseWs h1 with h2 | ⟨h3, h4⟩
    · subst h2
      exact ⟨by decide, fun _ => rfl⟩
    · rcases mem_replaceControls h3 with h5 | ⟨_, h6⟩
      · subst h5
        exact ⟨by decide, fun _ => rfl⟩
      · exact ⟨h6, fun hw => absurd hw (by simp [h4])⟩

/-- A character that is neither JavaScript whitespace nor a stripped control
character is not an ASCII control character. -/
lemma not_ascii_control {c : Char} (h1 : isJsWhitespace c = false)
    (h2 : isStrippedControl c = false) : isAsciiControl c = false := by
  simp only [isJsWhitespace, isStrippedControl, isAsciiControl,
    Bool.or_eq_false_iff, Bool.and_eq_false_iff, decide_eq_false_iff_not,
    not_le, beq_eq_false_iff_ne, ne_eq] at h1 h2 ⊢
  omega

/-- Claim C10: `sanitizeText` is idempotent; its output contains no ASCII
control character, no two consecutive whitespace characters, and no leading
or trailing whitespace; and the body text sent to the classifier is the
sanitised text truncated to at most `bodyMaxChars` characters. -/
theorem sanitize_properties (t : List Char) (mC : Nat) :
    sanitizeText (sanitizeText t) = sanitizeText t ∧
    (∀ c ∈ sanitizeText t, isAsciiControl c = false) ∧
    List.Chain' noDoubleWs (sanitizeText t) ∧
    (∀ c, (sanitizeText t).head? = some c → isJsWhitespace c = false) ∧
    (∀ c, (sanitizeText t).getLast? = some c → isJsWhitespace c = false) ∧
    classifierBody t mC = (sanitizeText t).take mC ∧
    (classifierBody t mC).length ≤ mC := by
  have hchain : List.Chain' noDoubleWs (sanitizeText t) := by
    unfold sanitizeText
    split
    · simp
    · exact chain'_trimWs (chain'_collapseWs _)
  have hhead : ∀ c, (sanitizeText t).head? = some c →
      isJsWhitespace c = false := by
    unfold sanitizeText
    split
    · intro c h; cases h
    · exact trimWs_head _
  have hlast : ∀ c, (sanitizeText t).getLast? = some c →
      isJsWhitespace c = false := by
    unfold sanitizeText
    split
    · intro c h; cases h
    · exact trimWs_last _
  have hctrl : ∀ c ∈ sanitizeText t, isAsciiControl c = false := by
    intro c hc
    obtain ⟨h2, h3⟩ := sanitizeText_chars hc
    by_cases hw : isJsWhitespace c
    · rw [h3 hw]; decide
    · exact not_ascii_control (by simpa using hw) h2
  have hidem : sanitizeText (sanitizeText t) = sanitizeText t := by
    have h1 : replaceControls (sanitizeText t) = sanitizeText t :=
      replaceControls_eq_self (fun c hc => (sanitizeText_chars hc).1)
    have h2 : collapseWs (sanitizeText t) = sanitizeText t :=
      collapseWs_eq_self (fun c hc => (sanitizeText_chars hc).2) hchain
    have h3 : trimWs (sanitizeText t) = sanitizeText t :=
      trimWs_eq_self hhead hlast
    by_cases hs : sanitizeText t = []
    · rw [hs]; rfl
    · obtain ⟨s, hs_eq⟩ : ∃ s, sanitizeText t = s := ⟨_, rfl⟩
      rw [hs_eq] at h1 h2 h3 hs ⊢
      simp only [sanitizeText, if_neg hs]
      rw [h1, h2, h3]
  refine ⟨hidem, hctrl, hchain, hhead, hlast, rfl, ?_⟩
  simp [classifierBody]

/-- Witness for `sanitize_properties` at a concrete input. -/
theorem sanitize_properties_witness :
    sanitizeText (sanitizeText [' ', 'a', '\t', 'b', ' ']) =
      sanitizeText [' ', 'a', '\t', 'b', ' '] ∧
    isJsWhitespace 'a' = false := by
  refine ⟨(sanitize_properties [' ', 'a', '\t', 'b', ' '] 3).1, ?_⟩
  exact (sanitize_properties [' ', 'a', '\t', 'b', ' '] 3).2.2.2.1 'a' (by decide)

end MailScanner
